import Mathlib

/-!
Verification of the PR-watcher merge orchestration engine
(source: src/projects/pr_watcher.py).

The source is shallowly embedded: each external command invocation is
represented by its observable result (`CmdResult`), the whole worker run
`auto_merge_pr` becomes a pure function from the results of the external
world (`WorkerEnv`) to the trace of observable events it performs,
in source order, together with the outcome of the run.  The polling
main loop is embedded likewise as a fold over per-cycle environments.
Concurrency (the `threading.Lock` guarding merge+push) is modelled by an
interleaving small-step semantics over the event traces of the workers.
-/

/-- Result of one external process invocation (`subprocess.run` with
`capture_output=True, text=True`): exit status plus captured output. -/
structure CmdResult where
  returncode : Int
  stdout : String
  stderr : String
deriving DecidableEq, Repr

/-- Python's substring test `pat in s`. -/
def containsStr (s pat : String) : Bool :=
  decide (pat.toList <:+: s.toList)

/-- Python whitespace as stripped by `str.strip()`. -/
def isPyWhitespace (c : Char) : Bool :=
  c = ' ' || c = '\t' || c = '\n' || c = '\r' || c = '\x0b' || c = '\x0c'

/-- Truthiness of `s.strip()` in Python: some non-whitespace character
remains. -/
def strippedNonempty (s : String) : Bool :=
  !(s.toList.all isPyWhitespace)

/-- A pull-request record as returned by `gh pr list --json
number,title,headRefName`.  `headRefName` is optional so that a malformed
record (missing the field, hence a `KeyError` on `pr["headRefName"]`)
is representable; `number` and `title` are read by the main loop itself,
which would crash outright without them, so they are kept mandatory. -/
structure PR where
  number : Int
  title : String
  headRefName : Option String
deriving DecidableEq, Repr

/-- Git operations performed by the worker, in the order the source
issues them (src/projects/pr_watcher.py, `_git` call sites). -/
inductive GitOp
  | fetch        -- git fetch origin <branch>            (line 246)
  | diffStat     -- git diff --stat origin/main...       (line 252)
  | pullFF       -- git pull --ff-only origin main       (line 259)
  | mergeNoFF    -- git merge --no-ff origin/<branch>    (line 264)
  | mergeAbort   -- git merge --abort                    (lines 277, 283)
  | push         -- git push origin main                 (line 286)
  | deleteRemote -- git push origin --delete <branch>    (line 292)
  | deleteLocal  -- git branch -D <branch>               (line 301)
deriving DecidableEq, Repr

/-- Info-level log lines printed by the worker. -/
inductive InfoKind
  | processingStart | diffSummary | conflictDetected | conflictResult
  | mergeComplete
deriving DecidableEq, Repr

/-- Error-level log lines printed by the worker. -/
inductive ErrKind
  | fetchFailed | pullFailed | mergeFailed | pushFailed
deriving DecidableEq, Repr

/-- Warning-level log lines printed by the worker. -/
inductive WarnKind
  | remoteDeleteFailed | localDeleteFailed
deriving DecidableEq, Repr

/-- Observable events of one worker run: lock acquisition/release of
`_merge_lock`, git commands, the Claude delegate invocation and the
echoing of its output, and log lines. -/
inductive Event
  | acquire | release
  | git (op : GitOp)
  | claudeInvoke | claudeOut | claudeErr
  | info (k : InfoKind) | error (k : ErrKind) | warn (k : WarnKind)
deriving DecidableEq, Repr

/-- The results of all external invocations one `auto_merge_pr` run can
make, i.e. the worker's view of the outside world.  The two
`mergeHead...` fields are the filesystem state `.git/MERGE_HEAD exists`
at the two moments `_is_merge_in_progress` may be called. -/
structure WorkerEnv where
  fetchRes : CmdResult
  diffRes : CmdResult
  pullRes : CmdResult
  mergeRes : CmdResult
  mergeHeadAfterMergeFail : Bool
  claudeRes : CmdResult
  mergeHeadAfterClaude : Bool
  abortRes : CmdResult
  pushRes : CmdResult
  delRemoteRes : CmdResult
  delLocalRes : CmdResult
deriving DecidableEq, Repr

/-- Spec-level outcome of one worker run (spec §3 MergeOutcome), used to
label the distinct exit paths of `auto_merge_pr`. -/
inductive MergeOutcome
  | succeeded | conflictResolved | conflictUnresolved
  | abortedFetch | abortedPull | abortedMerge
  | softFailurePush
deriving DecidableEq, Repr

/-- `_is_merge_in_progress` (lines 142-148): existence of
`.git/MERGE_HEAD`, given as the filesystem state at the call moment. -/
def _is_merge_in_progress (mergeHead : Bool) : Bool := mergeHead

/-- `_resolve_conflict_with_claude` (lines 151-204): print detection
info, invoke the Claude delegate, echo its stdout/stderr when nonempty,
and report success iff `.git/MERGE_HEAD` is gone after the call.  The
delegate's own exit status (`env.claudeRes.returncode`) is never read. -/
def _resolve_conflict_with_claude (num : Int) (title : String)
    (env : WorkerEnv) : List Event × Bool :=
  ([Event.info InfoKind.conflictDetected, Event.claudeInvoke]
    ++ (if env.claudeRes.stdout ≠ "" then [Event.claudeOut] else [])
    ++ (if env.claudeRes.stderr ≠ "" then [Event.claudeErr] else [])
    ++ [Event.info InfoKind.conflictResult],
   !_is_merge_in_progress env.mergeHeadAfterClaude)

/-- Conflict classification on merge failure (lines 270-274):
`"CONFLICT" in r.stdout or "Automatic merge failed" in r.stderr or
_is_merge_in_progress()`. -/
def merge_failure_is_conflict (env : WorkerEnv) : Bool :=
  containsStr env.mergeRes.stdout "CONFLICT"
  || containsStr env.mergeRes.stderr "Automatic merge failed"
  || _is_merge_in_progress env.mergeHeadAfterMergeFail

/-- How the `with _merge_lock:` block (lines 257-289) is exited. -/
inductive CritExit
  | abortPull | abortMergeNonConflict | conflictUnresolved | pushFailed
  | pushOk (resolved : Bool)
deriving DecidableEq, Repr

/-- The push step (lines 286-289), still inside the lock: on failure
print the error and return (exit path `pushFailed`). -/
def push_phase (env : WorkerEnv) (t : List Event) (resolved : Bool) :
    List Event × CritExit :=
  if env.pushRes.returncode ≠ 0 then
    (t ++ [Event.git GitOp.push, Event.error ErrKind.pushFailed],
     CritExit.pushFailed)
  else
    (t ++ [Event.git GitOp.push], CritExit.pushOk resolved)

/-- Body of the `with _merge_lock:` block (lines 257-289): ff-only pull
of main, no-ff merge of the PR branch, conflict classification and
delegation, then push.  Returns the events performed inside the lock
and the exit path taken. -/
def critical_section (num : Int) (title : String) (env : WorkerEnv) :
    List Event × CritExit :=
  if env.pullRes.returncode ≠ 0 then
    ([Event.git GitOp.pullFF, Event.error ErrKind.pullFailed],
     CritExit.abortPull)
  else if env.mergeRes.returncode ≠ 0 then
    if merge_failure_is_conflict env then
      if (_resolve_conflict_with_claude num title env).2 then
        push_phase env
          ([Event.git GitOp.pullFF, Event.git GitOp.mergeNoFF]
            ++ (_resolve_conflict_with_claude num title env).1) true
      else
        ([Event.git GitOp.pullFF, Event.git GitOp.mergeNoFF]
          ++ (_resolve_conflict_with_claude num title env).1
          ++ [Event.git GitOp.mergeAbort],
         CritExit.conflictUnresolved)
    else
      ([Event.git GitOp.pullFF, Event.git GitOp.mergeNoFF,
        Event.error ErrKind.mergeFailed, Event.git GitOp.mergeAbort],
       CritExit.abortMergeNonConflict)
  else
    push_phase env [Event.git GitOp.pullFF, Event.git GitOp.mergeNoFF] false

/-- Branch cleanup after a successful push (lines 291-308): delete the
remote branch (warn on failure), force-delete the local branch (warn on
failure unless the error output contains "not found"), final info line. -/
def branch_cleanup (env : WorkerEnv) : List Event :=
  [Event.git GitOp.deleteRemote]
  ++ (if env.delRemoteRes.returncode ≠ 0
      then [Event.warn WarnKind.remoteDeleteFailed] else [])
  ++ [Event.git GitOp.deleteLocal]
  ++ (if env.delLocalRes.returncode ≠ 0
         ∧ ¬ containsStr env.delLocalRes.stderr "not found" = true
      then [Event.warn WarnKind.localDeleteFailed] else [])
  ++ [Event.info InfoKind.mergeComplete]

/-- Events before the lock (lines 243-254): start line, fetch,
diff --stat with its summary printed when the diff output is nonblank
(the diff exit status is never read). -/
def pre_trace (env : WorkerEnv) : List Event :=
  [Event.info InfoKind.processingStart, Event.git GitOp.fetch,
   Event.git GitOp.diffStat]
  ++ (if strippedNonempty env.diffRes.stdout
      then [Event.info InfoKind.diffSummary] else [])

/-- Assemble the full trace of a worker run from the critical-section
result: the `with` statement semantics put `acquire` on entry and
`release` on every exit of the block, and branch cleanup runs after the
block only when the push succeeded. -/
def assemble (env : WorkerEnv) (c : List Event × CritExit) :
    List Event × MergeOutcome :=
  match c.2 with
  | CritExit.abortPull =>
      (pre_trace env ++ [Event.acquire] ++ c.1 ++ [Event.release],
       MergeOutcome.abortedPull)
  | CritExit.abortMergeNonConflict =>
      (pre_trace env ++ [Event.acquire] ++ c.1 ++ [Event.release],
       MergeOutcome.abortedMerge)
  | CritExit.conflictUnresolved =>
      (pre_trace env ++ [Event.acquire] ++ c.1 ++ [Event.release],
       MergeOutcome.conflictUnresolved)
  | CritExit.pushFailed =>
      (pre_trace env ++ [Event.acquire] ++ c.1 ++ [Event.release],
       MergeOutcome.softFailurePush)
  | CritExit.pushOk resolved =>
      (pre_trace env ++ [Event.acquire] ++ c.1 ++ [Event.release]
        ++ branch_cleanup env,
       if resolved then MergeOutcome.conflictResolved
       else MergeOutcome.succeeded)

/-- Worker run after field extraction (lines 243-308): fetch, diff,
locked pull+merge+conflict-delegation+push, cleanup. -/
def auto_merge_pr_body (num : Int) (title : String) (env : WorkerEnv) :
    List Event × MergeOutcome :=
  if env.fetchRes.returncode ≠ 0 then
    ([Event.info InfoKind.processingStart, Event.git GitOp.fetch,
      Event.error ErrKind.fetchFailed],
     MergeOutcome.abortedFetch)
  else
    assemble env (critical_section num title env)

/-- `auto_merge_pr` (lines 231-308).  The three dict accesses
`pr["number"]`, `pr["headRefName"]`, `pr["title"]` happen before any
output; a record missing `headRefName` raises `KeyError` there, so the
run produces no events and its exception escapes (`Except.error`). -/
def auto_merge_pr (pr : PR) (env : WorkerEnv) :
    List Event × Except Unit MergeOutcome :=
  match pr.headRefName with
  | none => ([], Except.error ())
  | some _ =>
      ((auto_merge_pr_body pr.number pr.title env).1,
       Except.ok (auto_merge_pr_body pr.number pr.title env).2)


/-! ## Lock-bracketing predicates over event traces -/

/-- The trace piece contains no lock events. -/
def noLock (l : List Event) : Bool :=
  l.all fun e => !decide (e = Event.acquire) && !decide (e = Event.release)

/-- Depth-checking of lock events: starting at depth `d` (0 = lock not
held, 1 = held), every `acquire` happens at depth 0, every `release` at
depth 1, and the trace ends at depth 0.  This is exactly "acquired and
released in a scoped, non-reentrant way, released on every exit path". -/
def lockDepthOk : List Event → Nat → Bool
  | [], d => decide (d = 0)
  | e :: r, d =>
    if e = Event.acquire then decide (d = 0) && lockDepthOk r 1
    else if e = Event.release then decide (d = 1) && lockDepthOk r 0
    else lockDepthOk r d

/-- The operations of spec steps 3-5, which must only happen while the
lock is held: ff-only pull, no-ff merge, merge abort, conflict
delegation, push of the integration branch. -/
def isExclusiveOp : Event → Bool
  | Event.git GitOp.pullFF => true
  | Event.git GitOp.mergeNoFF => true
  | Event.git GitOp.mergeAbort => true
  | Event.git GitOp.push => true
  | Event.claudeInvoke => true
  | _ => false

/-- The trace piece contains no step-3-5 operations. -/
def noExcl (l : List Event) : Bool := l.all fun e => !isExclusiveOp e

/-- Scanning check that every step-3-5 operation occurs while the lock
is held (`d` tracks whether the scanner is between acquire/release). -/
def lockedOpsInside : List Event → Bool → Bool
  | [], _ => true
  | e :: r, d =>
    if e = Event.acquire then lockedOpsInside r true
    else if e = Event.release then lockedOpsInside r false
    else (!isExclusiveOp e || d) && lockedOpsInside r d

theorem lockDepthOk_cons_acquire (r : List Event) (d : Nat) :
    lockDepthOk (Event.acquire :: r) d
      = (decide (d = 0) && lockDepthOk r 1) := by
  simp [lockDepthOk]

theorem lockDepthOk_cons_release (r : List Event) (d : Nat) :
    lockDepthOk (Event.release :: r) d
      = (decide (d = 1) && lockDepthOk r 0) := by
  simp [lockDepthOk]

theorem lockedOpsInside_cons_acquire (r : List Event) (d : Bool) :
    lockedOpsInside (Event.acquire :: r) d = lockedOpsInside r true := by
  simp [lockedOpsInside]

theorem lockedOpsInside_cons_release (r : List Event) (d : Bool) :
    lockedOpsInside (Event.release :: r) d = lockedOpsInside r false := by
  simp [lockedOpsInside]

theorem lockDepthOk_append (a b : List Event) :
    ∀ d : Nat, noLock a = true →
      lockDepthOk (a ++ b) d = lockDepthOk b d := by
  induction a with
  | nil => intro d h; rfl
  | cons e r ih =>
    intro d h
    simp only [noLock, List.all_cons, Bool.and_eq_true, Bool.not_eq_true',
      decide_eq_false_iff_not] at h
    simp only [List.cons_append, lockDepthOk, if_neg h.1.1, if_neg h.1.2]
    exact ih d h.2

theorem lockDepthOk_of_noLock (a : List Event) (h : noLock a = true) :
    lockDepthOk a 0 = true := by
  have h2 := lockDepthOk_append a [] 0 h
  simpa using h2

theorem lockedOpsInside_append_held (a b : List Event)
    (h : noLock a = true) :
    lockedOpsInside (a ++ b) true = lockedOpsInside b true := by
  induction a with
  | nil => rfl
  | cons e r ih =>
    simp only [noLock, List.all_cons, Bool.and_eq_true, Bool.not_eq_true',
      decide_eq_false_iff_not] at h
    simp only [List.cons_append, lockedOpsInside, if_neg h.1.1,
      if_neg h.1.2, Bool.or_true, Bool.true_and]
    exact ih h.2

theorem lockedOpsInside_append_free (a b : List Event) :
    noLock a = true → noExcl a = true →
      lockedOpsInside (a ++ b) false = lockedOpsInside b false := by
  induction a with
  | nil => intro h h2; rfl
  | cons e r ih =>
    intro h h2
    simp only [noLock, List.all_cons, Bool.and_eq_true, Bool.not_eq_true',
      decide_eq_false_iff_not] at h
    simp only [noExcl, List.all_cons, Bool.and_eq_true,
      Bool.not_eq_true'] at h2
    simp only [List.cons_append, lockedOpsInside, if_neg h.1.1,
      if_neg h.1.2, h2.1, Bool.not_false, Bool.true_or, Bool.true_and]
    exact ih h.2 h2.2

theorem lockedOpsInside_of_free (a : List Event) (h : noLock a = true)
    (h2 : noExcl a = true) : lockedOpsInside a false = true := by
  have h3 := lockedOpsInside_append_free a [] h h2
  simpa using h3

/-- A trace of shape `pre ++ [acquire] ++ body ++ [release] ++ post`
with lock-free pieces is correctly bracketed. -/
theorem lockDepthOk_bracket (a b c : List Event)
    (ha : noLock a = true) (hb : noLock b = true) (hc : noLock c = true) :
    lockDepthOk (a ++ [Event.acquire] ++ b ++ [Event.release] ++ c) 0
      = true := by
  have h1 : a ++ [Event.acquire] ++ b ++ [Event.release] ++ c
      = a ++ (Event.acquire :: (b ++ (Event.release :: c))) := by
    simp
  rw [h1, lockDepthOk_append a _ 0 ha, lockDepthOk_cons_acquire,
    lockDepthOk_append b _ 1 hb, lockDepthOk_cons_release]
  simp [lockDepthOk_of_noLock c hc]

/-- In a trace of that shape whose outside pieces contain no step-3-5
operation, every step-3-5 operation is inside the locked region. -/
theorem lockedOpsInside_bracket (a b c : List Event)
    (ha : noLock a = true) (ha2 : noExcl a = true)
    (hb : noLock b = true)
    (hc : noLock c = true) (hc2 : noExcl c = true) :
    lockedOpsInside (a ++ [Event.acquire] ++ b ++ [Event.release] ++ c)
      false = true := by
  have h1 : a ++ [Event.acquire] ++ b ++ [Event.release] ++ c
      = a ++ (Event.acquire :: (b ++ (Event.release :: c))) := by
    simp
  rw [h1, lockedOpsInside_append_free a _ ha ha2,
    lockedOpsInside_cons_acquire, lockedOpsInside_append_held b _ hb,
    lockedOpsInside_cons_release]
  exact lockedOpsInside_of_free c hc hc2

/-! ## Bracketing facts about the worker trace -/

theorem noLock_append (a b : List Event) :
    noLock (a ++ b) = (noLock a && noLock b) := by
  simp [noLock, List.all_append]

theorem noExcl_append (a b : List Event) :
    noExcl (a ++ b) = (noExcl a && noExcl b) := by
  simp [noExcl, List.all_append]

theorem noLock_resolve (num : Int) (title : String) (env : WorkerEnv) :
    noLock (_resolve_conflict_with_claude num title env).1 = true := by
  unfold _resolve_conflict_with_claude
  split_ifs <;> rfl

theorem noLock_push_phase (env : WorkerEnv) (t : List Event)
    (resolved : Bool) (h : noLock t = true) :
    noLock (push_phase env t resolved).1 = true := by
  unfold push_phase
  split_ifs
  · show noLock
      (t ++ [Event.git GitOp.push, Event.error ErrKind.pushFailed]) = true
    rw [noLock_append, h]; rfl
  · show noLock (t ++ [Event.git GitOp.push]) = true
    rw [noLock_append, h]; rfl

theorem noLock_critical_section (num : Int) (title : String)
    (env : WorkerEnv) :
    noLock (critical_section num title env).1 = true := by
  unfold critical_section
  have hr := noLock_resolve num title env
  split_ifs
  · rfl
  · apply noLock_push_phase
    rw [noLock_append, hr]; rfl
  · show noLock
      ([Event.git GitOp.pullFF, Event.git GitOp.mergeNoFF]
        ++ (_resolve_conflict_with_claude num title env).1
        ++ [Event.git GitOp.mergeAbort]) = true
    rw [noLock_append, noLock_append, hr]; rfl
  · rfl
  · apply noLock_push_phase
    rfl

theorem noLock_pre_trace (env : WorkerEnv) :
    noLock (pre_trace env) = true := by
  unfold pre_trace
  split_ifs <;> rfl

theorem noExcl_pre_trace (env : WorkerEnv) :
    noExcl (pre_trace env) = true := by
  unfold pre_trace
  split_ifs <;> rfl

theorem noLock_branch_cleanup (env : WorkerEnv) :
    noLock (branch_cleanup env) = true := by
  unfold branch_cleanup
  split_ifs <;> rfl

theorem noExcl_branch_cleanup (env : WorkerEnv) :
    noExcl (branch_cleanup env) = true := by
  unfold branch_cleanup
  split_ifs <;> rfl

/-- Every worker-body trace is correctly lock-bracketed. -/
theorem auto_merge_pr_body_lockDepthOk (num : Int) (title : String)
    (env : WorkerEnv) :
    lockDepthOk (auto_merge_pr_body num title env).1 0 = true := by
  unfold auto_merge_pr_body
  split_ifs
  · rfl
  · rcases h : critical_section num title env with ⟨t, ex⟩
    have hct : noLock t = true := by
      have hc := noLock_critical_section num title env
      rw [h] at hc; exact hc
    have ha := noLock_pre_trace env
    have hcl := noLock_branch_cleanup env
    cases ex
    · have h2 := lockDepthOk_bracket (pre_trace env) t [] ha hct (by rfl)
      simpa [assemble] using h2
    · have h2 := lockDepthOk_bracket (pre_trace env) t [] ha hct (by rfl)
      simpa [assemble] using h2
    · have h2 := lockDepthOk_bracket (pre_trace env) t [] ha hct (by rfl)
      simpa [assemble] using h2
    · have h2 := lockDepthOk_bracket (pre_trace env) t [] ha hct (by rfl)
      simpa [assemble] using h2
    · have h2 := lockDepthOk_bracket (pre_trace env) t
        (branch_cleanup env) ha hct hcl
      simpa [assemble] using h2

/-- Every worker run's trace is correctly lock-bracketed: the lock is
acquired once before step 3 and released on every exit path. -/
theorem auto_merge_pr_lockDepthOk (pr : PR) (env : WorkerEnv) :
    lockDepthOk (auto_merge_pr pr env).1 0 = true := by
  rcases pr with ⟨num, title, href⟩
  cases href with
  | none => rfl
  | some b => exact auto_merge_pr_body_lockDepthOk num title env

/-- Every step-3-5 operation in a worker-body trace occurs while the
lock is held. -/
theorem auto_merge_pr_body_lockedOpsInside (num : Int) (title : String)
    (env : WorkerEnv) :
    lockedOpsInside (auto_merge_pr_body num title env).1 false = true := by
  unfold auto_merge_pr_body
  split_ifs
  · rfl
  · rcases h : critical_section num title env with ⟨t, ex⟩
    have hct : noLock t = true := by
      have hc := noLock_critical_section num title env
      rw [h] at hc; exact hc
    have ha := noLock_pre_trace env
    have ha2 := noExcl_pre_trace env
    have hcl := noLock_branch_cleanup env
    have hcl2 := noExcl_branch_cleanup env
    cases ex
    · have h2 := lockedOpsInside_bracket (pre_trace env) t [] ha ha2 hct
        (by rfl) (by rfl)
      simpa [assemble] using h2
    · have h2 := lockedOpsInside_bracket (pre_trace env) t [] ha ha2 hct
        (by rfl) (by rfl)
      simpa [assemble] using h2
    · have h2 := lockedOpsInside_bracket (pre_trace env) t [] ha ha2 hct
        (by rfl) (by rfl)
      simpa [assemble] using h2
    · have h2 := lockedOpsInside_bracket (pre_trace env) t [] ha ha2 hct
        (by rfl) (by rfl)
      simpa [assemble] using h2
    · have h2 := lockedOpsInside_bracket (pre_trace env) t
        (branch_cleanup env) ha ha2 hct hcl hcl2
      simpa [assemble] using h2

/-- Every step-3-5 operation in a worker run's trace occurs while the
lock is held. -/
theorem auto_merge_pr_lockedOpsInside (pr : PR) (env : WorkerEnv) :
    lockedOpsInside (auto_merge_pr pr env).1 false = true := by
  rcases pr with ⟨num, title, href⟩
  cases href with
  | none => rfl
  | some b => exact auto_merge_pr_body_lockedOpsInside num title env

/-! ## Interleaving semantics of the worker pool sharing `_merge_lock`

Each worker is its event trace; a scheduler step lets one worker consume
its next event.  `acquire` blocks until the lock is free (the semantics
of `threading.Lock.acquire`), `release` frees it unconditionally
(`threading.Lock.release` is not owner-checked).  `flag i` records
whether worker `i` is currently between its `acquire` and its
`release`, i.e. inside its step-3-5 window. -/

structure PoolState where
  lockHolder : Option Nat
  flag : Nat → Bool
  rem : Nat → List Event

/-- One scheduler step: some worker performs its next event. -/
inductive PoolStep : PoolState → PoolState → Prop
  | acquire (s : PoolState) (i : Nat) (rest : List Event)
      (hw : s.rem i = Event.acquire :: rest) (hl : s.lockHolder = none) :
      PoolStep s ⟨some i, Function.update s.flag i true,
        Function.update s.rem i rest⟩
  | release (s : PoolState) (i : Nat) (rest : List Event)
      (hw : s.rem i = Event.release :: rest) :
      PoolStep s ⟨none, Function.update s.flag i false,
        Function.update s.rem i rest⟩
  | other (s : PoolState) (i : Nat) (e : Event) (rest : List Event)
      (hw : s.rem i = e :: rest) (hna : e ≠ Event.acquire)
      (hnr : e ≠ Event.release) :
      PoolStep s ⟨s.lockHolder, s.flag, Function.update s.rem i rest⟩

/-- Reflexive-transitive closure of scheduler steps. -/
inductive PoolReaches : PoolState → PoolState → Prop
  | refl (s : PoolState) : PoolReaches s s
  | tail {s t u : PoolState} (h : PoolReaches s t) (hs : PoolStep t u) :
      PoolReaches s u

/-- Initial pool state for a list of worker traces: lock free, nobody
inside the critical region. -/
def initPool (ts : List (List Event)) : PoolState :=
  ⟨none, fun _ => false, fun i => ts.getD i []⟩

/-- Worker `i` is inside its step-3-5 window. -/
def inCriticalSection (s : PoolState) (i : Nat) : Bool := s.flag i

/-- The inductive invariant: whoever is inside the critical region is
the current lock holder, and every remaining trace is well-bracketed
relative to its current depth. -/
def PoolInv (s : PoolState) : Prop :=
  (∀ i, s.flag i = true → s.lockHolder = some i)
  ∧ (∀ i, lockDepthOk (s.rem i) (if s.flag i then 1 else 0) = true)

theorem poolInv_step {s u : PoolState} (hinv : PoolInv s)
    (hstep : PoolStep s u) : PoolInv u := by
  obtain ⟨h1, h2⟩ := hinv
  cases hstep with
  | acquire i rest hw hl =>
    have hdep := h2 i
    rw [hw, lockDepthOk_cons_acquire, Bool.and_eq_true] at hdep
    constructor
    · intro j hj
      dsimp only at hj ⊢
      by_cases hij : j = i
      · simp [hij]
      · rw [Function.update_noteq hij] at hj
        exact absurd (hl ▸ h1 j hj) (by simp)
    · intro j
      dsimp only
      by_cases hij : j = i
      · subst hij
        simp only [Function.update_same]
        exact hdep.2
      · rw [Function.update_noteq hij, Function.update_noteq hij]
        exact h2 j
  | release i rest hw =>
    have hdep := h2 i
    rw [hw, lockDepthOk_cons_release, Bool.and_eq_true] at hdep
    have hfi : s.flag i = true := by
      rcases hfl : s.flag i
      · rw [hfl] at hdep; simp at hdep
      · rfl
    constructor
    · intro j hj
      dsimp only at hj ⊢
      by_cases hij : j = i
      · subst hij; simp at hj
      · rw [Function.update_noteq hij] at hj
        have h3 := (h1 j hj).symm.trans (h1 i hfi)
        exact absurd (Option.some_injective _ h3) hij
    · intro j
      dsimp only
      by_cases hij : j = i
      · subst hij
        simp only [Function.update_same]
        exact hdep.2
      · rw [Function.update_noteq hij, Function.update_noteq hij]
        exact h2 j
  | other i e rest hw hna hnr =>
    constructor
    · exact h1
    · intro j
      dsimp only
      by_cases hij : j = i
      · subst hij
        have hdep := h2 j
        rw [hw] at hdep
        rw [Function.update_same]
        rw [show lockDepthOk (e :: rest) (if s.flag j then 1 else 0)
            = lockDepthOk rest (if s.flag j then 1 else 0) by
          simp [lockDepthOk, if_neg hna, if_neg hnr]] at hdep
        exact hdep
      · rw [Function.update_noteq hij]
        exact h2 j

theorem poolInv_reaches {s u : PoolState} (hinv : PoolInv s)
    (h : PoolReaches s u) : PoolInv u := by
  induction h with
  | refl => exact hinv
  | tail h hs ih => exact poolInv_step ih hs

theorem poolInv_init (ts : List (List Event))
    (hts : ∀ t ∈ ts, lockDepthOk t 0 = true) : PoolInv (initPool ts) := by
  constructor
  · intro i hi
    simp [initPool] at hi
  · intro i
    simp only [initPool, if_neg (by simp : ¬ (false = true))]
    rcases hg : (ts.getD i []) with _ | ⟨e, r⟩
    · rfl
    · have : ts.getD i [] ∈ ts ∨ ts.getD i [] = ([] : List Event) := by
        rcases Nat.lt_or_ge i ts.length with hlt | hge
        · left
          rw [List.getD_eq_getElem _ _ hlt]
          exact List.getElem_mem hlt
        · right
          exact List.getD_eq_default _ _ hge
      rcases this with hmem | hnil
      · rw [← hg]; exact hts _ hmem
      · rw [hnil] at hg; exact absurd hg (by simp)

/-- Mutual exclusion for any pool of well-bracketed traces: in every
reachable state at most one worker is inside its critical region. -/
theorem pool_mutual_exclusion (ts : List (List Event))
    (hts : ∀ t ∈ ts, lockDepthOk t 0 = true) (s : PoolState)
    (h : PoolReaches (initPool ts) s) (i j : Nat)
    (hi : inCriticalSection s i = true)
    (hj : inCriticalSection s j = true) : i = j := by
  have hinv := poolInv_reaches (poolInv_init ts hts) h
  have h1 := hinv.1 i hi
  have h2 := hinv.1 j hj
  exact Option.some_injective _ (h1.symm.trans h2)

/-! ## Claim C1 -/

/-- C1: For every pair of concurrently running MergeWorker executions,
their step-3-to-5 windows (ff-only pull, no-ff merge, conflict
delegation, push) never overlap: every worker trace is lock-bracketed
with the release on every exit path, the step-3-5 operations occur only
while the lock is held, and in any state reachable by interleaving any
number of `auto_merge_pr` runs, at most one worker is inside its
critical region. -/
theorem claim_mutual_exclusion :
    (∀ (pr : PR) (env : WorkerEnv),
      lockDepthOk (auto_merge_pr pr env).1 0 = true
      ∧ lockedOpsInside (auto_merge_pr pr env).1 false = true)
    ∧ ∀ (jobs : List (PR × WorkerEnv)) (s : PoolState),
        PoolReaches
          (initPool (jobs.map fun j => (auto_merge_pr j.1 j.2).1)) s →
        ∀ i j : Nat, inCriticalSection s i = true →
          inCriticalSection s j = true → i = j := by
  constructor
  · intro pr env
    exact ⟨auto_merge_pr_lockDepthOk pr env,
      auto_merge_pr_lockedOpsInside pr env⟩
  · intro jobs s h i j hi hj
    refine pool_mutual_exclusion _ ?_ s h i j hi hj
    intro t ht
    rcases List.mem_map.mp ht with ⟨⟨pr, env⟩, _, rfl⟩
    exact auto_merge_pr_lockDepthOk pr env

/-- A fully successful environment: every external command exits 0,
no merge conflict, empty outputs. -/
def envAllOk : WorkerEnv :=
  ⟨⟨0, "", ""⟩, ⟨0, "", ""⟩, ⟨0, "", ""⟩, ⟨0, "", ""⟩, false,
   ⟨0, "", ""⟩, false, ⟨0, "", ""⟩, ⟨0, "", ""⟩, ⟨0, "", ""⟩, ⟨0, "", ""⟩⟩

/-- A well-formed PR record. -/
def prOk : PR := ⟨1, "t", some "b"⟩

def jobsW : List (PR × WorkerEnv) := [(prOk, envAllOk)]

/-- The concrete trace of the all-successful run, for the witness. -/
def traceW : List Event :=
  [Event.info InfoKind.processingStart, Event.git GitOp.fetch,
   Event.git GitOp.diffStat, Event.acquire, Event.git GitOp.pullFF,
   Event.git GitOp.mergeNoFF, Event.git GitOp.push, Event.release,
   Event.git GitOp.deleteRemote, Event.git GitOp.deleteLocal,
   Event.info InfoKind.mergeComplete]

def poolW0 : PoolState := initPool (jobsW.map fun j => (auto_merge_pr j.1 j.2).1)

def poolW1 : PoolState :=
  ⟨poolW0.lockHolder, poolW0.flag, Function.update poolW0.rem 0 (traceW.drop 1)⟩

def poolW2 : PoolState :=
  ⟨poolW1.lockHolder, poolW1.flag, Function.update poolW1.rem 0 (traceW.drop 2)⟩

def poolW3 : PoolState :=
  ⟨poolW2.lockHolder, poolW2.flag, Function.update poolW2.rem 0 (traceW.drop 3)⟩

def poolW4 : PoolState :=
  ⟨some 0, Function.update poolW3.flag 0 true,
   Function.update poolW3.rem 0 (traceW.drop 4)⟩

theorem claim_mutual_exclusion_witness : (0 : Nat) = 0 := by
  have h01 : PoolStep poolW0 poolW1 :=
    PoolStep.other poolW0 0 (Event.info InfoKind.processingStart)
      (traceW.drop 1) (by decide) (by decide) (by decide)
  have h12 : PoolStep poolW1 poolW2 :=
    PoolStep.other poolW1 0 (Event.git GitOp.fetch)
      (traceW.drop 2) (by decide) (by decide) (by decide)
  have h23 : PoolStep poolW2 poolW3 :=
    PoolStep.other poolW2 0 (Event.git GitOp.diffStat)
      (traceW.drop 3) (by decide) (by decide) (by decide)
  have h34 : PoolStep poolW3 poolW4 :=
    PoolStep.acquire poolW3 0 (traceW.drop 4) (by decide) (by decide)
  have hr : PoolReaches poolW0 poolW4 :=
    PoolReaches.tail (PoolReaches.tail (PoolReaches.tail
      (PoolReaches.tail (PoolReaches.refl poolW0) h01) h12) h23) h34
  exact claim_mutual_exclusion.2 jobsW poolW4 hr 0 0 (by decide) (by decide)

/-! ## Claim C3 -/

/-- C3: `resolve(identifier, title)` returns true iff
`isMergeInProgress()` (existence of `.git/MERGE_HEAD`) is false
immediately after the delegate call, regardless of the delegate
process's exit status or output content. -/
theorem claim_resolve_judgment :
    ∀ (num : Int) (title : String) (env : WorkerEnv),
      ((_resolve_conflict_with_claude num title env).2 = true
        ↔ _is_merge_in_progress env.mergeHeadAfterClaude = false)
      ∧ ∀ r : CmdResult,
          (_resolve_conflict_with_claude num title
            { env with claudeRes := r }).2
          = (_resolve_conflict_with_claude num title env).2 := by
  intro num title env
  constructor
  · simp [_resolve_conflict_with_claude, _is_merge_in_progress]
  · intro r
    rfl

/-! ## Claim C9 -/

/-- C9: during branch cleanup, a failed local forced deletion whose
error output contains "not found" is silently treated as success (no
warning); the local-delete warning is emitted exactly when the delete
fails and its error output lacks "not found". -/
theorem claim_local_delete_not_found_silent :
    ∀ env : WorkerEnv,
      Event.warn WarnKind.localDeleteFailed ∈ branch_cleanup env
        ↔ (env.delLocalRes.returncode ≠ 0
            ∧ containsStr env.delLocalRes.stderr "not found" = false) := by
  intro env
  unfold branch_cleanup
  split_ifs <;> simp_all

/-! ## Helper membership lemmas for the worker trace -/

theorem resolve_no_git (num : Int) (title : String) (env : WorkerEnv)
    (op : GitOp) :
    Event.git op ∉ (_resolve_conflict_with_claude num title env).1 := by
  unfold _resolve_conflict_with_claude
  split_ifs <;> simp

theorem resolve_has_claudeInvoke (num : Int) (title : String)
    (env : WorkerEnv) :
    Event.claudeInvoke ∈ (_resolve_conflict_with_claude num title env).1 := by
  unfold _resolve_conflict_with_claude
  split_ifs <;> simp

theorem pre_trace_no_op (env : WorkerEnv) (op : GitOp)
    (h1 : op ≠ GitOp.fetch) (h2 : op ≠ GitOp.diffStat) :
    Event.git op ∉ pre_trace env := by
  unfold pre_trace
  split_ifs <;> simp_all

theorem pre_trace_no_claudeInvoke (env : WorkerEnv) :
    Event.claudeInvoke ∉ pre_trace env := by
  unfold pre_trace
  split_ifs <;> simp

/-- A critical section that exited through `pushFailed` performed no
merge abort and no cleanup operation, and did attempt the push. -/
theorem critical_section_pushFailed (num : Int) (title : String)
    (env : WorkerEnv) (t : List Event)
    (h : critical_section num title env = (t, CritExit.pushFailed)) :
    Event.git GitOp.mergeAbort ∉ t ∧ Event.git GitOp.deleteRemote ∉ t
    ∧ Event.git GitOp.deleteLocal ∉ t ∧ Event.git GitOp.push ∈ t := by
  unfold critical_section push_phase at h
  have hr1 := resolve_no_git num title env GitOp.mergeAbort
  have hr2 := resolve_no_git num title env GitOp.deleteRemote
  have hr3 := resolve_no_git num title env GitOp.deleteLocal
  split_ifs at h
  · exact absurd (congrArg Prod.snd h) (by simp)
  · injection h with h1 h2
    subst h1
    refine ⟨?_, ?_, ?_, ?_⟩ <;> simp [List.mem_append, hr1, hr2, hr3]
  · exact absurd (congrArg Prod.snd h) (by simp)
  · exact absurd (congrArg Prod.snd h) (by simp)
  · exact absurd (congrArg Prod.snd h) (by simp)
  · injection h with h1 h2
    subst h1
    refine ⟨?_, ?_, ?_, ?_⟩ <;> simp
  · exact absurd (congrArg Prod.snd h) (by simp)

/-- A critical section that exited through `pushOk` performed no merge
abort and no cleanup operation. -/
theorem critical_section_pushOk (num : Int) (title : String)
    (env : WorkerEnv) (t : List Event) (resolved : Bool)
    (h : critical_section num title env = (t, CritExit.pushOk resolved)) :
    Event.git GitOp.mergeAbort ∉ t ∧ Event.git GitOp.deleteRemote ∉ t
    ∧ Event.git GitOp.deleteLocal ∉ t := by
  unfold critical_section push_phase at h
  have hr1 := resolve_no_git num title env GitOp.mergeAbort
  have hr2 := resolve_no_git num title env GitOp.deleteRemote
  have hr3 := resolve_no_git num title env GitOp.deleteLocal
  split_ifs at h
  · exact absurd (congrArg Prod.snd h) (by simp)
  · exact absurd (congrArg Prod.snd h) (by simp)
  · injection h with h1 h2
    subst h1
    refine ⟨?_, ?_, ?_⟩ <;> simp [List.mem_append, hr1, hr2, hr3]
  · exact absurd (congrArg Prod.snd h) (by simp)
  · exact absurd (congrArg Prod.snd h) (by simp)
  · exact absurd (congrArg Prod.snd h) (by simp)
  · injection h with h1 h2
    subst h1
    refine ⟨?_, ?_, ?_⟩ <;> simp

theorem branch_cleanup_no_op (env : WorkerEnv) (op : GitOp)
    (h1 : op ≠ GitOp.deleteRemote) (h2 : op ≠ GitOp.deleteLocal) :
    Event.git op ∉ branch_cleanup env := by
  unfold branch_cleanup
  split_ifs <;> simp_all

/-! ## Claim C5 -/

/-- C5: when the push of the integration branch fails after a
successful (or successfully resolved) merge, the worker performs no
branch cleanup (no remote and no local branch deletion), nothing undoes
the local merge commit (no merge abort anywhere in the run), and the
run ends by releasing the lock. -/
theorem claim_push_failure_soft :
    ∀ (pr : PR) (env : WorkerEnv),
      (auto_merge_pr pr env).2 = Except.ok MergeOutcome.softFailurePush →
      Event.git GitOp.deleteRemote ∉ (auto_merge_pr pr env).1
      ∧ Event.git GitOp.deleteLocal ∉ (auto_merge_pr pr env).1
      ∧ Event.git GitOp.mergeAbort ∉ (auto_merge_pr pr env).1
      ∧ Event.git GitOp.push ∈ (auto_merge_pr pr env).1
      ∧ ∃ a, (auto_merge_pr pr env).1 = a ++ [Event.release] := by
  intro pr env hout
  rcases pr with ⟨num, title, href⟩
  cases href with
  | none => simp [auto_merge_pr] at hout
  | some b =>
    simp only [auto_merge_pr] at hout ⊢
    have hout2 : (auto_merge_pr_body num title env).2
        = MergeOutcome.softFailurePush := by
      injection hout
    unfold auto_merge_pr_body at hout2 ⊢
    split_ifs at hout2 ⊢ with hf
    · rcases hc : critical_section num title env with ⟨t, ex⟩
      rw [hc] at hout2
      cases ex
      · simp [assemble] at hout2
      · simp [assemble] at hout2
      · simp [assemble] at hout2
      · obtain ⟨h1, h2, h3, h4⟩ :=
          critical_section_pushFailed num title env t hc
        simp only [assemble]
        have hp1 := pre_trace_no_op env GitOp.deleteRemote
          (by decide) (by decide)
        have hp2 := pre_trace_no_op env GitOp.deleteLocal
          (by decide) (by decide)
        have hp3 := pre_trace_no_op env GitOp.mergeAbort
          (by decide) (by decide)
        refine ⟨?_, ?_, ?_, ?_, ?_⟩
        · simp [List.mem_append, hp1, h2]
        · simp [List.mem_append, hp2, h3]
        · simp [List.mem_append, hp3, h1]
        · simp [List.mem_append, h4]
        · exact ⟨pre_trace env ++ [Event.acquire] ++ t, rfl⟩
      · rename_i resolved
        cases resolved <;> simp [assemble] at hout2

/-! ## Claim C7 -/

/-- C7: every worker run that reaches branch cleanup attempts both the
remote and the local branch deletion (the remote deletion's failure
does not prevent the local attempt, and vice versa — the deletions are
unconditional); each sub-step's failure only yields a warning, and the
already merged-and-pushed change is never rolled back (no merge abort
occurs anywhere in such a run). -/
theorem claim_cleanup_independence :
    ∀ (pr : PR) (env : WorkerEnv) (o : MergeOutcome),
      (auto_merge_pr pr env).2 = Except.ok o →
      (o = MergeOutcome.succeeded ∨ o = MergeOutcome.conflictResolved) →
      (∃ a, (auto_merge_pr pr env).1 = a ++ branch_cleanup env)
      ∧ Event.git GitOp.deleteRemote ∈ branch_cleanup env
      ∧ Event.git GitOp.deleteLocal ∈ branch_cleanup env
      ∧ (Event.warn WarnKind.remoteDeleteFailed ∈ branch_cleanup env
          ↔ env.delRemoteRes.returncode ≠ 0)
      ∧ (Event.warn WarnKind.localDeleteFailed ∈ branch_cleanup env
          → env.delLocalRes.returncode ≠ 0)
      ∧ Event.git GitOp.mergeAbort ∉ (auto_merge_pr pr env).1 := by
  intro pr env o hout hdisj
  rcases pr with ⟨num, title, href⟩
  cases href with
  | none => simp [auto_merge_pr] at hout
  | some b =>
    simp only [auto_merge_pr] at hout ⊢
    have hout2 : (auto_merge_pr_body num title env).2 = o := by
      injection hout
    unfold auto_merge_pr_body at hout2 ⊢
    split_ifs at hout2 ⊢ with hf
    · rcases hdisj with rfl | rfl <;> simp at hout2
    · rcases hc : critical_section num title env with ⟨t, ex⟩
      rw [hc] at hout2
      cases ex
      · rcases hdisj with rfl | rfl <;> simp [assemble] at hout2
      · rcases hdisj with rfl | rfl <;> simp [assemble] at hout2
      · rcases hdisj with rfl | rfl <;> simp [assemble] at hout2
      · rcases hdisj with rfl | rfl <;> simp [assemble] at hout2
      · rename_i resolved
        have ht := critical_section_pushOk num title env t resolved hc
        have hp3 := pre_trace_no_op env GitOp.mergeAbort
          (by decide) (by decide)
        have hb3 := branch_cleanup_no_op env GitOp.mergeAbort
          (by decide) (by decide)
        simp only [assemble]
        refine ⟨⟨pre_trace env ++ [Event.acquire] ++ t ++ [Event.release],
          by simp⟩, ?_, ?_, ?_, ?_, ?_⟩
        · unfold branch_cleanup
          split_ifs <;> simp
        · unfold branch_cleanup
          split_ifs <;> simp
        · unfold branch_cleanup
          split_ifs <;> simp_all
        · unfold branch_cleanup
          split_ifs <;> simp_all
        · simp [List.mem_append, hp3, hb3, ht]

/-! ## Claim C4 -/

/-- C4: a failed merge is classified as a textual conflict iff the
merge stdout contains "CONFLICT", or its stderr contains
"Automatic merge failed", or the merge-in-progress marker exists; when
it is not so classified, the worker aborts the in-progress merge, exits
with outcome Aborted(merge) releasing the lock, and never invokes the
conflict-resolution delegate. -/
theorem claim_merge_failure_classification :
    ∀ (num : Int) (title : String) (env : WorkerEnv),
      env.fetchRes.returncode = 0 → env.pullRes.returncode = 0 →
      env.mergeRes.returncode ≠ 0 →
      (merge_failure_is_conflict env = true ↔
        (containsStr env.mergeRes.stdout "CONFLICT" = true
          ∨ containsStr env.mergeRes.stderr "Automatic merge failed" = true
          ∨ env.mergeHeadAfterMergeFail = true))
      ∧ (Event.claudeInvoke ∈ (auto_merge_pr_body num title env).1 ↔
          merge_failure_is_conflict env = true)
      ∧ (merge_failure_is_conflict env = false →
          auto_merge_pr_body num title env
            = (pre_trace env ++ [Event.acquire]
                ++ [Event.git GitOp.pullFF, Event.git GitOp.mergeNoFF,
                    Event.error ErrKind.mergeFailed,
                    Event.git GitOp.mergeAbort]
                ++ [Event.release],
               MergeOutcome.abortedMerge)) := by
  intro num title env hf hp hm
  refine ⟨?_, ?_, ?_⟩
  · simp [merge_failure_is_conflict, _is_merge_in_progress,
      Bool.or_eq_true, or_assoc]
  · have hnc := pre_trace_no_claudeInvoke env
    have hrc := resolve_has_claudeInvoke num title env
    unfold auto_merge_pr_body assemble critical_section push_phase
    rw [if_neg (by simp [hf]), if_neg (by simp [hp]), if_pos hm]
    by_cases hcf : merge_failure_is_conflict env = true
    · rw [if_pos hcf]
      split_ifs <;>
        simp_all [List.mem_append, branch_cleanup]
    · rw [if_neg hcf]
      simp_all [List.mem_append]
  · intro hcf
    unfold auto_merge_pr_body assemble critical_section push_phase
    rw [if_neg (by simp [hf]), if_neg (by simp [hp]), if_pos hm,
      if_neg (by simp [hcf])]

/-- The outcome component of `assemble` depends only on the
critical-section result, not on the environment. -/
theorem assemble_snd (env1 env2 : WorkerEnv) (c : List Event × CritExit) :
    (assemble env1 c).2 = (assemble env2 c).2 := by
  rcases c with ⟨t, ex⟩
  cases ex <;> rfl

/-! ## Claim C8 -/

/-- C8: a failure of the diff-summary step is tolerated: whenever the
fetch succeeded, the worker reaches the locked integration step
(acquires the lock) no matter what the diff command returned, and the
rest of the run — the whole critical section and the final outcome — is
a function that does not depend on the diff result at all. -/
theorem claim_diff_failure_tolerated :
    ∀ (num : Int) (title : String) (env : WorkerEnv),
      env.fetchRes.returncode = 0 →
      Event.acquire ∈ (auto_merge_pr_body num title env).1
      ∧ ∀ d : CmdResult,
          critical_section num title { env with diffRes := d }
            = critical_section num title env
          ∧ (auto_merge_pr_body num title { env with diffRes := d }).2
            = (auto_merge_pr_body num title env).2 := by
  intro num title env hf
  constructor
  · unfold auto_merge_pr_body
    rw [if_neg (by simp [hf])]
    rcases hc : critical_section num title env with ⟨t, ex⟩
    cases ex <;> simp [assemble, List.mem_append]
  · intro d
    have hcs : critical_section num title { env with diffRes := d }
        = critical_section num title env := by
      cases env
      rfl
    refine ⟨hcs, ?_⟩
    unfold auto_merge_pr_body
    dsimp only
    rw [hcs]
    split_ifs
    · rfl
    · exact assemble_snd _ _ _

/-! ## Witnesses for the worker claims -/

def envMergeFailNC : WorkerEnv :=
  { envAllOk with mergeRes := ⟨1, "went wrong", ""⟩ }

theorem claim_merge_failure_classification_witness :
    auto_merge_pr_body 5 "t" envMergeFailNC
      = (pre_trace envMergeFailNC ++ [Event.acquire]
          ++ [Event.git GitOp.pullFF, Event.git GitOp.mergeNoFF,
              Event.error ErrKind.mergeFailed, Event.git GitOp.mergeAbort]
          ++ [Event.release],
         MergeOutcome.abortedMerge) :=
  (claim_merge_failure_classification 5 "t" envMergeFailNC rfl rfl
    (by decide)).2.2 (by decide)

def envPushFail : WorkerEnv :=
  { envAllOk with pushRes := ⟨1, "", "rejected"⟩ }

theorem claim_push_failure_soft_witness :
    Event.git GitOp.push ∈ (auto_merge_pr prOk envPushFail).1 :=
  (claim_push_failure_soft prOk envPushFail rfl).2.2.2.1

def envRemoteDelFail : WorkerEnv :=
  { envAllOk with delRemoteRes := ⟨1, "", "denied"⟩ }

theorem claim_cleanup_independence_witness :
    Event.git GitOp.deleteLocal ∈ branch_cleanup envRemoteDelFail :=
  (claim_cleanup_independence prOk envRemoteDelFail
    MergeOutcome.succeeded rfl (Or.inl rfl)).2.2.1

def envDiffFail : WorkerEnv :=
  { envAllOk with diffRes := ⟨1, "", "diff exploded"⟩ }

theorem claim_diff_failure_tolerated_witness :
    Event.acquire ∈ (auto_merge_pr_body 5 "t" envDiffFail).1 :=
  (claim_diff_failure_tolerated 5 "t" envDiffFail rfl).1

/-! ## The polling main loop (lines 311-353) -/

/-- External world of one poll cycle: exit status of
`gh pr list` and the PR records its stdout parses to. -/
structure PollEnv where
  ghReturncode : Int
  ghPrs : List PR
  ghStderr : String
deriving Repr

/-- Observable events of the main loop. -/
inductive MainEvent
  | errorList          -- [ERROR] gh pr list failed       (line 226)
  | infoNoNew          -- [INFO] no unprocessed PRs       (line 332)
  | add (id : Int)     -- processed.add(pr["number"])     (line 338)
  | submit (id : Int)  -- executor.submit(auto_merge_pr)  (line 339)
  | infoQueued (id : Int) -- [INFO] queued                (line 340)
  | sleep              -- time.sleep(POLL_INTERVAL_SEC)   (line 346)
deriving DecidableEq, Repr

/-- `get_open_prs` (lines 207-228): on a nonzero exit status log the
error and return the empty list, otherwise the parsed records. -/
def get_open_prs (env : PollEnv) : List PR × List MainEvent :=
  if env.ghReturncode ≠ 0 then ([], [MainEvent.errorList])
  else (env.ghPrs, [])

/-- The submission loop over `new_prs` (lines 337-344): for each record
in order, add its number to `processed`, submit it to the executor,
print the queued line.  Returns the final registry and the events. -/
def submitLoop (p : List Int) : List PR → List Int × List MainEvent
  | [] => (p, [])
  | pr :: rest =>
      ((submitLoop (p ++ [pr.number]) rest).1,
       MainEvent.add pr.number :: MainEvent.submit pr.number ::
         MainEvent.infoQueued pr.number ::
         (submitLoop (p ++ [pr.number]) rest).2)

/-- `new_prs` (lines 327-329): the listed PRs whose number is not yet
in the processed registry, computed once against the registry as of the
start of the iteration. -/
def new_prs (p : List Int) (env : PollEnv) : List PR :=
  (get_open_prs env).1.filter (fun pr => !(p.contains pr.number))

/-- One iteration of the `while True` loop (lines 325-346): list open
PRs, filter out already-processed numbers, submit the new ones, sleep. -/
def pollCycle (p : List Int) (env : PollEnv) : List Int × List MainEvent :=
  if (new_prs p env).isEmpty then
    (p, (get_open_prs env).2 ++ [MainEvent.infoNoNew, MainEvent.sleep])
  else
    ((submitLoop p (new_prs p env)).1,
     (get_open_prs env).2 ++ (submitLoop p (new_prs p env)).2
       ++ [MainEvent.sleep])

/-- The main loop run over a finite schedule of poll cycles, starting
from registry `p` (`main`, lines 321-346; `processed` starts empty and
lives for the whole process lifetime). -/
def runCycles (p : List Int) : List PollEnv → List Int × List MainEvent
  | [] => (p, [])
  | env :: rest =>
      ((runCycles (pollCycle p env).1 rest).1,
       (pollCycle p env).2 ++ (runCycles (pollCycle p env).1 rest).2)

/-- Number of times identifier `id` is submitted to the worker pool in
an event trace. -/
def submitsOf (evs : List MainEvent) (id : Int) : Nat :=
  evs.countP (fun e => decide (e = MainEvent.submit id))

/-- Scanning check that every submission is immediately preceded by the
registration of the same identifier in the processed registry. -/
def addThenSubmit : List MainEvent → Bool
  | [] => true
  | MainEvent.add n :: MainEvent.submit m :: rest =>
      decide (n = m) && addThenSubmit rest
  | MainEvent.submit _ :: _ => false
  | _ :: rest => addThenSubmit rest

/-! ## Dedup lemmas for the main loop -/

/-- Occurrences of `id` in a list of identifiers. -/
def idCount (l : List Int) (id : Int) : Nat :=
  l.countP (fun n => decide (n = id))

theorem idCount_nil (id : Int) : idCount [] id = 0 := rfl

theorem idCount_zero_of_not_mem (l : List Int) (id : Int)
    (h : id ∉ l) : idCount l id = 0 := by
  unfold idCount
  rw [List.countP_eq_zero]
  intro x hx
  simp only [decide_eq_true_eq]
  intro he
  exact h (he ▸ hx)

theorem idCount_le_one_of_nodup (l : List Int) (id : Int)
    (h : l.Nodup) : idCount l id ≤ 1 := by
  induction l with
  | nil => simp [idCount]
  | cons a l ih =>
    rcases List.nodup_cons.mp h with ⟨ha, hl⟩
    unfold idCount at ih ⊢
    rw [List.countP_cons]
    by_cases hai : a = id
    · subst hai
      have hz := idCount_zero_of_not_mem l a ha
      unfold idCount at hz
      simp [hz]
    · simp [hai]
      exact ih hl

theorem idCount_pos_mem (l : List Int) (id : Int)
    (h : 0 < idCount l id) : id ∈ l := by
  by_contra hc
  rw [idCount_zero_of_not_mem l id hc] at h
  exact absurd h (by simp)

theorem submitLoop_fst (l : List PR) : ∀ p : List Int,
    (submitLoop p l).1 = p ++ l.map PR.number := by
  induction l with
  | nil => intro p; simp [submitLoop]
  | cons pr rest ih =>
    intro p
    simp [submitLoop, ih (p ++ [pr.number])]

theorem submitLoop_count (l : List PR) : ∀ (p : List Int) (id : Int),
    submitsOf (submitLoop p l).2 id = idCount (l.map PR.number) id := by
  induction l with
  | nil => intro p id; rfl
  | cons pr rest ih =>
    intro p id
    simp only [submitLoop, submitsOf, List.countP_cons, List.map_cons,
      idCount] at ih ⊢
    rw [ih (p ++ [pr.number])]
    simp [Nat.add_assoc]

theorem pollCycle_fst (p : List Int) (env : PollEnv) :
    (pollCycle p env).1 = p ++ (new_prs p env).map PR.number := by
  unfold pollCycle
  split_ifs with h
  · rw [List.isEmpty_iff.mp h]
    simp
  · exact submitLoop_fst _ p

theorem pollCycle_count (p : List Int) (env : PollEnv) (id : Int) :
    submitsOf (pollCycle p env).2 id
      = idCount ((new_prs p env).map PR.number) id := by
  unfold pollCycle
  have hg : submitsOf (get_open_prs env).2 id = 0 := by
    unfold get_open_prs
    split_ifs <;> rfl
  split_ifs with h
  · rw [List.isEmpty_iff.mp h]
    simp only [submitsOf, List.countP_append] at hg ⊢
    simp [hg, idCount]
  · simp only [submitsOf, List.countP_append] at hg ⊢
    have hs := submitLoop_count (new_prs p env) p id
    simp only [submitsOf] at hs
    simp [hg, hs]

theorem mem_of_mem_pollCycle (p : List Int) (env : PollEnv) (id : Int)
    (h : id ∈ p) : id ∈ (pollCycle p env).1 := by
  rw [pollCycle_fst]
  exact List.mem_append_left _ h

theorem pollCycle_count_zero (p : List Int) (env : PollEnv) (id : Int)
    (h : id ∈ p) : submitsOf (pollCycle p env).2 id = 0 := by
  rw [pollCycle_count]
  apply idCount_zero_of_not_mem
  intro hmem
  rcases List.mem_map.mp hmem with ⟨pr, hpr, hnum⟩
  have hf := (List.mem_filter.mp hpr).2
  rw [hnum] at hf
  simp only [Bool.not_eq_true'] at hf
  exact absurd h (by simpa [List.contains, List.elem_eq_mem] using hf)

theorem pollCycle_nodup (p : List Int) (env : PollEnv)
    (h : ((get_open_prs env).1.map PR.number).Nodup) :
    ((new_prs p env).map PR.number).Nodup := by
  unfold new_prs
  exact h.sublist ((List.filter_sublist _).map PR.number)

theorem pollCycle_mem_of_count_pos (p : List Int) (env : PollEnv)
    (id : Int) (h : 0 < submitsOf (pollCycle p env).2 id) :
    id ∈ (pollCycle p env).1 := by
  rw [pollCycle_count] at h
  rw [pollCycle_fst]
  exact List.mem_append_right _ (idCount_pos_mem _ _ h)

/-- Registry monotonicity and no-resubmission: an identifier already in
the processed registry survives every later cycle and is never
submitted again. -/
theorem runCycles_mono (envs : List PollEnv) : ∀ (p : List Int)
    (id : Int), id ∈ p →
    id ∈ (runCycles p envs).1 ∧ submitsOf (runCycles p envs).2 id = 0 := by
  induction envs with
  | nil => intro p id h; exact ⟨h, rfl⟩
  | cons env rest ih =>
    intro p id h
    have h1 := mem_of_mem_pollCycle p env id h
    have h2 := pollCycle_count_zero p env id h
    have h3 := ih (pollCycle p env).1 id h1
    refine ⟨h3.1, ?_⟩
    simp only [runCycles, submitsOf, List.countP_append]
    simp only [submitsOf] at h2 h3
    simp [h2, h3.2]

/-- Under per-cycle uniqueness of listed identifiers, an identifier is
submitted at most once over the whole process lifetime. -/
theorem runCycles_count_le_one (envs : List PollEnv)
    (hn : ∀ env ∈ envs, ((get_open_prs env).1.map PR.number).Nodup) :
    ∀ (p : List Int) (id : Int),
      submitsOf (runCycles p envs).2 id ≤ 1 := by
  induction envs with
  | nil => intro p id; simp [runCycles, submitsOf]
  | cons env rest ih =>
    intro p id
    have hrest : ∀ e ∈ rest, ((get_open_prs e).1.map PR.number).Nodup :=
      fun e he => hn e (List.mem_cons_of_mem env he)
    have hcyc : submitsOf (pollCycle p env).2 id ≤ 1 := by
      rw [pollCycle_count]
      exact idCount_le_one_of_nodup _ id
        (pollCycle_nodup p env (hn env (List.mem_cons_self env rest)))
    simp only [runCycles, submitsOf, List.countP_append]
    rcases Nat.eq_zero_or_pos
        (submitsOf (pollCycle p env).2 id) with hz | hpos
    · simp only [submitsOf] at hz
      rw [hz]
      simpa [submitsOf] using ih hrest (pollCycle p env).1 id
    · have hmem := pollCycle_mem_of_count_pos p env id hpos
      have hrest0 :=
        (runCycles_mono rest (pollCycle p env).1 id hmem).2
      simp only [submitsOf] at hcyc hrest0 ⊢
      omega

theorem addThenSubmit_submitLoop (l : List PR) : ∀ (p : List Int)
    (rest : List MainEvent),
    addThenSubmit ((submitLoop p l).2 ++ rest) = addThenSubmit rest := by
  induction l with
  | nil => intro p rest; rfl
  | cons pr tl ih =>
    intro p rest
    calc addThenSubmit ((submitLoop p (pr :: tl)).2 ++ rest)
        = (decide (pr.number = pr.number)
            && addThenSubmit ((submitLoop (p ++ [pr.number]) tl).2 ++ rest))
          := rfl
      _ = addThenSubmit rest := by simp [ih]

theorem addThenSubmit_pollCycle (p : List Int) (env : PollEnv)
    (rest : List MainEvent) :
    addThenSubmit ((pollCycle p env).2 ++ rest) = addThenSubmit rest := by
  unfold pollCycle get_open_prs
  split_ifs with h1 h2 h2
  · rfl
  · rfl
  · calc addThenSubmit (([MainEvent.errorList]
          ++ (submitLoop p (new_prs p env)).2 ++ [MainEvent.sleep]) ++ rest)
        = addThenSubmit ((submitLoop p (new_prs p env)).2
            ++ ([MainEvent.sleep] ++ rest)) := by
          simp [List.append_assoc]
          rfl
      _ = addThenSubmit ([MainEvent.sleep] ++ rest) :=
          addThenSubmit_submitLoop _ p _
      _ = addThenSubmit rest := rfl
  · calc addThenSubmit ((([] : List MainEvent)
          ++ (submitLoop p (new_prs p env)).2 ++ [MainEvent.sleep]) ++ rest)
        = addThenSubmit ((submitLoop p (new_prs p env)).2
            ++ ([MainEvent.sleep] ++ rest)) := by
          simp [List.append_assoc]
      _ = addThenSubmit ([MainEvent.sleep] ++ rest) :=
          addThenSubmit_submitLoop _ p _
      _ = addThenSubmit rest := rfl

theorem addThenSubmit_runCycles (envs : List PollEnv) : ∀ p : List Int,
    addThenSubmit (runCycles p envs).2 = true := by
  induction envs with
  | nil => intro p; rfl
  | cons env rest ih =>
    intro p
    simp only [runCycles]
    rw [addThenSubmit_pollCycle]
    exact ih (pollCycle p env).1

/-! ## Claim C2 -/

/-- C2: over any sequence of poll cycles in one process lifetime (with
the listed identifiers unique within each listing, as the data model
guarantees), an identifier is submitted to the worker pool at most once
even if it reappears in later listings; any identifier present in the
registry survives all later cycles with zero further submissions (no
operation removes it); and every submission is immediately preceded by
the registration of that identifier, i.e. the identifier is registered
at submission time, not at worker completion. -/
theorem claim_processed_dedup :
    ∀ (envs : List PollEnv),
      (∀ env ∈ envs, ((get_open_prs env).1.map PR.number).Nodup) →
      ∀ id : Int,
        submitsOf (runCycles [] envs).2 id ≤ 1
        ∧ (∀ p : List Int, id ∈ p →
            id ∈ (runCycles p envs).1
            ∧ submitsOf (runCycles p envs).2 id = 0)
        ∧ addThenSubmit (runCycles [] envs).2 = true := by
  intro envs hn id
  exact ⟨runCycles_count_le_one envs hn [] id,
    fun p hp => runCycles_mono envs p id hp,
    addThenSubmit_runCycles envs []⟩

def envsW : List PollEnv :=
  [⟨0, [⟨5, "a", some "b"⟩], ""⟩, ⟨0, [⟨5, "a", some "b"⟩], ""⟩]

theorem claim_processed_dedup_witness :
    submitsOf (runCycles [] envsW).2 5 ≤ 1 :=
  (claim_processed_dedup envsW (by decide) 5).1

/-! ## Claim C6 -/

/-- C6: a failing `listOpenChanges` query is non-fatal to the poller:
the failure is logged, the query yields zero changes, the registry is
unchanged, and the loop sleeps and proceeds to the next iteration
exactly as if nothing had been listed. -/
theorem claim_list_failure_nonfatal :
    ∀ (p : List Int) (env : PollEnv) (rest : List PollEnv),
      env.ghReturncode ≠ 0 →
      get_open_prs env = ([], [MainEvent.errorList])
      ∧ pollCycle p env
          = (p, [MainEvent.errorList, MainEvent.infoNoNew, MainEvent.sleep])
      ∧ runCycles p (env :: rest)
          = ((runCycles p rest).1,
             [MainEvent.errorList, MainEvent.infoNoNew, MainEvent.sleep]
               ++ (runCycles p rest).2) := by
  intro p env rest h
  have hg : get_open_prs env = ([], [MainEvent.errorList]) := by
    unfold get_open_prs
    rw [if_pos h]
  have hc : pollCycle p env
      = (p, [MainEvent.errorList, MainEvent.infoNoNew, MainEvent.sleep]) := by
    unfold pollCycle new_prs
    rw [hg]
    simp
  refine ⟨hg, hc, ?_⟩
  simp only [runCycles, hc]

def envFailW : PollEnv := ⟨1, [], "network unreachable"⟩

theorem claim_list_failure_nonfatal_witness :
    pollCycle [3] envFailW
      = ([3], [MainEvent.errorList, MainEvent.infoNoNew, MainEvent.sleep]) :=
  (claim_list_failure_nonfatal [3] envFailW [] (by decide)).2.1

/-! ## Claim C10 -/

/-- C10: an exception escaping a worker run (a change record missing
the source-branch field raises before the worker's first output) yields
an errored, discarded result with no log output at all; the poller's
registry is a function of the poll results alone, so the identifier —
registered at submission — stays in the registry for the rest of the
process lifetime and the change is never submitted again: it is
silently lost. -/
theorem claim_worker_exception_isolated :
    ∀ (pr : PR) (env : WorkerEnv), pr.headRefName = none →
      auto_merge_pr pr env = ([], Except.error ())
      ∧ ∀ (p : List Int) (envs : List PollEnv) (id : Int), id ∈ p →
          id ∈ (runCycles p envs).1
          ∧ submitsOf (runCycles p envs).2 id = 0 := by
  intro pr env h
  constructor
  · rcases pr with ⟨n, t, href⟩
    cases href
    · rfl
    · simp at h
  · intro p envs id hp
    exact runCycles_mono envs p id hp

theorem claim_worker_exception_isolated_witness :
    auto_merge_pr ⟨7, "x", none⟩ envAllOk = ([], Except.error ()) :=
  (claim_worker_exception_isolated ⟨7, "x", none⟩ envAllOk rfl).1
